import Mathlib

/-!
Verification of the `wkt` crate's tokenizer and top-level parser.

Shallow embedding of `src/tokenizer.rs`, `src/lib.rs` and
`src/types/multilinestring.rs`. Strings are modelled as `List Char`
(Rust iterates over `char`s). The numeric payload type `T` (instantiated
at `f64` in the crate's tests) is modelled by `FloatVal`: either an exact
rational value, a signed infinity, or NaN; decimal literals are given
their exact rational value rather than a rounded binary one, which is
value-preserving for every literal appearing in this development.

The crate's `types/mod.rs`, `types/point.rs` and `types/linestring.rs`
are not part of the sources; the definitions that stand in for them are
marked `Modelled from the spec:` and follow the specification text.
-/

namespace Wkt

/-! ## Character classification (`src/tokenizer.rs`) -/

/-- `is_whitespace` from `src/tokenizer.rs`: newline, carriage return,
tab and space. -/
def is_whitespace (c : Char) : Bool :=
  c = '\n' || c = '\r' || c = '\t' || c = ' '

/-- Modelled from the spec: Rust's `char::is_numeric`, true exactly for
characters of the Unicode general categories Nd, Nl and No, whose table
lives in the Rust standard library, not in this repository. The ranges
below are the complete list of maximal Nd ∪ Nl ∪ No codepoint ranges of
Unicode 14.0.0 (134 ranges, 1791 codepoints; the only sub-ASCII range
is the decimal digits 0x30-0x39). -/
def char_is_numeric (c : Char) : Bool :=
  let n := c.toNat
  (0x30 ≤ n && n ≤ 0x39)
  || (0xB2 ≤ n && n ≤ 0xB3)
  || (0xB9 ≤ n && n ≤ 0xB9)
  || (0xBC ≤ n && n ≤ 0xBE)
  || (0x660 ≤ n && n ≤ 0x669)
  || (0x6F0 ≤ n && n ≤ 0x6F9)
  || (0x7C0 ≤ n && n ≤ 0x7C9)
  || (0x966 ≤ n && n ≤ 0x96F)
  || (0x9E6 ≤ n && n ≤ 0x9EF)
  || (0x9F4 ≤ n && n ≤ 0x9F9)
  || (0xA66 ≤ n && n ≤ 0xA6F)
  || (0xAE6 ≤ n && n ≤ 0xAEF)
  || (0xB66 ≤ n && n ≤ 0xB6F)
  || (0xB72 ≤ n && n ≤ 0xB77)
  || (0xBE6 ≤ n && n ≤ 0xBF2)
  || (0xC66 ≤ n && n ≤ 0xC6F)
  || (0xC78 ≤ n && n ≤ 0xC7E)
  || (0xCE6 ≤ n && n ≤ 0xCEF)
  || (0xD58 ≤ n && n ≤ 0xD5E)
  || (0xD66 ≤ n && n ≤ 0xD78)
  || (0xDE6 ≤ n && n ≤ 0xDEF)
  || (0xE50 ≤ n && n ≤ 0xE59)
  || (0xED0 ≤ n && n ≤ 0xED9)
  || (0xF20 ≤ n && n ≤ 0xF33)
  || (0x1040 ≤ n && n ≤ 0x1049)
  || (0x1090 ≤ n && n ≤ 0x1099)
  || (0x1369 ≤ n && n ≤ 0x137C)
  || (0x16EE ≤ n && n ≤ 0x16F0)
  || (0x17E0 ≤ n && n ≤ 0x17E9)
  || (0x17F0 ≤ n && n ≤ 0x17F9)
  || (0x1810 ≤ n && n ≤ 0x1819)
  || (0x1946 ≤ n && n ≤ 0x194F)
  || (0x19D0 ≤ n && n ≤ 0x19DA)
  || (0x1A80 ≤ n && n ≤ 0x1A89)
  || (0x1A90 ≤ n && n ≤ 0x1A99)
  || (0x1B50 ≤ n && n ≤ 0x1B59)
  || (0x1BB0 ≤ n && n ≤ 0x1BB9)
  || (0x1C40 ≤ n && n ≤ 0x1C49)
  || (0x1C50 ≤ n && n ≤ 0x1C59)
  || (0x2070 ≤ n && n ≤ 0x2070)
  || (0x2074 ≤ n && n ≤ 0x2079)
  || (0x2080 ≤ n && n ≤ 0x2089)
  || (0x2150 ≤ n && n ≤ 0x2182)
  || (0x2185 ≤ n && n ≤ 0x2189)
  || (0x2460 ≤ n && n ≤ 0x249B)
  || (0x24EA ≤ n && n ≤ 0x24FF)
  || (0x2776 ≤ n && n ≤ 0x2793)
  || (0x2CFD ≤ n && n ≤ 0x2CFD)
  || (0x3007 ≤ n && n ≤ 0x3007)
  || (0x3021 ≤ n && n ≤ 0x3029)
  || (0x3038 ≤ n && n ≤ 0x303A)
  || (0x3192 ≤ n && n ≤ 0x3195)
  || (0x3220 ≤ n && n ≤ 0x3229)
  || (0x3248 ≤ n && n ≤ 0x324F)
  || (0x3251 ≤ n && n ≤ 0x325F)
  || (0x3280 ≤ n && n ≤ 0x3289)
  || (0x32B1 ≤ n && n ≤ 0x32BF)
  || (0xA620 ≤ n && n ≤ 0xA629)
  || (0xA6E6 ≤ n && n ≤ 0xA6EF)
  || (0xA830 ≤ n && n ≤ 0xA835)
  || (0xA8D0 ≤ n && n ≤ 0xA8D9)
  || (0xA900 ≤ n && n ≤ 0xA909)
  || (0xA9D0 ≤ n && n ≤ 0xA9D9)
  || (0xA9F0 ≤ n && n ≤ 0xA9F9)
  || (0xAA50 ≤ n && n ≤ 0xAA59)
  || (0xABF0 ≤ n && n ≤ 0xABF9)
  || (0xFF10 ≤ n && n ≤ 0xFF19)
  || (0x10107 ≤ n && n ≤ 0x10133)
  || (0x10140 ≤ n && n ≤ 0x10178)
  || (0x1018A ≤ n && n ≤ 0x1018B)
  || (0x102E1 ≤ n && n ≤ 0x102FB)
  || (0x10320 ≤ n && n ≤ 0x10323)
  || (0x10341 ≤ n && n ≤ 0x10341)
  || (0x1034A ≤ n && n ≤ 0x1034A)
  || (0x103D1 ≤ n && n ≤ 0x103D5)
  || (0x104A0 ≤ n && n ≤ 0x104A9)
  || (0x10858 ≤ n && n ≤ 0x1085F)
  || (0x10879 ≤ n && n ≤ 0x1087F)
  || (0x108A7 ≤ n && n ≤ 0x108AF)
  || (0x108FB ≤ n && n ≤ 0x108FF)
  || (0x10916 ≤ n && n ≤ 0x1091B)
  || (0x109BC ≤ n && n ≤ 0x109BD)
  || (0x109C0 ≤ n && n ≤ 0x109CF)
  || (0x109D2 ≤ n && n ≤ 0x109FF)
  || (0x10A40 ≤ n && n ≤ 0x10A48)
  || (0x10A7D ≤ n && n ≤ 0x10A7E)
  || (0x10A9D ≤ n && n ≤ 0x10A9F)
  || (0x10AEB ≤ n && n ≤ 0x10AEF)
  || (0x10B58 ≤ n && n ≤ 0x10B5F)
  || (0x10B78 ≤ n && n ≤ 0x10B7F)
  || (0x10BA9 ≤ n && n ≤ 0x10BAF)
  || (0x10CFA ≤ n && n ≤ 0x10CFF)
  || (0x10D30 ≤ n && n ≤ 0x10D39)
  || (0x10E60 ≤ n && n ≤ 0x10E7E)
  || (0x10F1D ≤ n && n ≤ 0x10F26)
  || (0x10F51 ≤ n && n ≤ 0x10F54)
  || (0x10FC5 ≤ n && n ≤ 0x10FCB)
  || (0x11052 ≤ n && n ≤ 0x1106F)
  || (0x110F0 ≤ n && n ≤ 0x110F9)
  || (0x11136 ≤ n && n ≤ 0x1113F)
  || (0x111D0 ≤ n && n ≤ 0x111D9)
  || (0x111E1 ≤ n && n ≤ 0x111F4)
  || (0x112F0 ≤ n && n ≤ 0x112F9)
  || (0x11450 ≤ n && n ≤ 0x11459)
  || (0x114D0 ≤ n && n ≤ 0x114D9)
  || (0x11650 ≤ n && n ≤ 0x11659)
  || (0x116C0 ≤ n && n ≤ 0x116C9)
  || (0x11730 ≤ n && n ≤ 0x1173B)
  || (0x118E0 ≤ n && n ≤ 0x118F2)
  || (0x11950 ≤ n && n ≤ 0x11959)
  || (0x11C50 ≤ n && n ≤ 0x11C6C)
  || (0x11D50 ≤ n && n ≤ 0x11D59)
  || (0x11DA0 ≤ n && n ≤ 0x11DA9)
  || (0x11FC0 ≤ n && n ≤ 0x11FD4)
  || (0x12400 ≤ n && n ≤ 0x1246E)
  || (0x16A60 ≤ n && n ≤ 0x16A69)
  || (0x16AC0 ≤ n && n ≤ 0x16AC9)
  || (0x16B50 ≤ n && n ≤ 0x16B59)
  || (0x16B5B ≤ n && n ≤ 0x16B61)
  || (0x16E80 ≤ n && n ≤ 0x16E96)
  || (0x1D2E0 ≤ n && n ≤ 0x1D2F3)
  || (0x1D360 ≤ n && n ≤ 0x1D378)
  || (0x1D7CE ≤ n && n ≤ 0x1D7FF)
  || (0x1E140 ≤ n && n ≤ 0x1E149)
  || (0x1E2F0 ≤ n && n ≤ 0x1E2F9)
  || (0x1E8C7 ≤ n && n ≤ 0x1E8CF)
  || (0x1E950 ≤ n && n ≤ 0x1E959)
  || (0x1EC71 ≤ n && n ≤ 0x1ECAB)
  || (0x1ECAD ≤ n && n ≤ 0x1ECAF)
  || (0x1ECB1 ≤ n && n ≤ 0x1ECB4)
  || (0x1ED01 ≤ n && n ≤ 0x1ED2D)
  || (0x1ED2F ≤ n && n ≤ 0x1ED3D)
  || (0x1F100 ≤ n && n ≤ 0x1F10C)
  || (0x1FBF0 ≤ n && n ≤ 0x1FBF9)

/-- `is_numberlike` from `src/tokenizer.rs`: a Unicode-numeric
character, `.`, `-` or `+`. -/
def is_numberlike (c : Char) : Bool :=
  char_is_numeric c || c = '.' || c = '-' || c = '+'

/-- The four characters `read_until_whitespace` treats as structural
markers (`'\x00' | '(' | ')' | ','` in its `match`). -/
def is_marker (c : Char) : Bool :=
  c = '\x00' || c = '(' || c = ')' || c = ','

/-- A character that continues a word or numeric run: neither a
structural marker nor whitespace. -/
def word_char (c : Char) : Bool :=
  !is_marker c && !is_whitespace c

/-! ## Rust float parsing (`str::parse::<f64>`) -/

/-- Value of a parsed `f64`, with decimal literals kept exact as
rationals. -/
inductive FloatVal where
  | finite (q : ℚ)
  | inf (neg : Bool)
  | nan
  deriving DecidableEq, Repr

/-- Numeric value of an ASCII digit. -/
def digit_val (c : Char) : ℕ := c.toNat - 48

/-- Value of a list of ASCII digits read in base 10. -/
def digits_val (l : List Char) : ℕ :=
  l.foldl (fun a c => 10 * a + digit_val c) 0

/-- Strip an optional leading sign, returning whether it was `-` and
the remaining characters. -/
def split_sign : List Char → Bool × List Char
  | '+' :: r => (false, r)
  | '-' :: r => (true, r)
  | r => (false, r)

/-- Modelled from the spec (Rust standard library `f64::from_str`,
exponent part): empty input means exponent 0; otherwise `e`/`E`, an
optional sign, and at least one digit consuming the whole rest. -/
def parse_exp_part : List Char → Option ℤ
  | [] => some 0
  | c :: rest =>
    if c = 'e' || c = 'E' then
      let signed := split_sign rest
      let ds := signed.2
      if ds.isEmpty then none
      else if ds.all Char.isDigit then
        some (if signed.1 then -(digits_val ds : ℤ) else (digits_val ds : ℤ))
      else none
    else none

/-- Exact rational value of a mantissa `ip . fp` scaled by `10 ^ e`:
`(ip + fp / 10 ^ |fp|) * 10 ^ e`, written as a single integer quotient
so that it evaluates by kernel reduction. -/
def mantissa_val (ip fp : List Char) (e : ℤ) : ℚ :=
  let m : ℤ := (digits_val ip : ℤ) * 10 ^ fp.length + (digits_val fp : ℤ)
  if 0 ≤ e then Rat.divInt (m * 10 ^ e.toNat) (10 ^ fp.length)
  else Rat.divInt m (10 ^ fp.length * 10 ^ (-e).toNat)

/-- ASCII lower-casing of one character. -/
def ascii_lower (c : Char) : Char :=
  if 'A' ≤ c && c ≤ 'Z' then Char.ofNat (c.toNat + 32) else c

/-- Modelled from the spec (Rust standard library `f64::from_str`,
unsigned part): digits, an optional point with further digits — at
least one digit in total — then an optional exponent. -/
def rust_parse_number (s : List Char) : Option ℚ :=
  let ip := s.takeWhile Char.isDigit
  let r1 := s.dropWhile Char.isDigit
  match r1 with
  | '.' :: r2 =>
    let fp := r2.takeWhile Char.isDigit
    let r3 := r2.dropWhile Char.isDigit
    if ip.isEmpty && fp.isEmpty then none
    else
      match parse_exp_part r3 with
      | some e => some (mantissa_val ip fp e)
      | none => none
  | _ =>
    if ip.isEmpty then none
    else
      match parse_exp_part r1 with
      | some e => some (mantissa_val ip [] e)
      | none => none

/-- Modelled from the spec (Rust standard library `f64::from_str`):
an optional sign followed by `inf`, `infinity`, `nan`
(case-insensitive) or a decimal number. -/
def rust_parse_float (s : List Char) : Option FloatVal :=
  match s with
  | [] => none
  | _ =>
    let signed := split_sign s
    let neg := signed.1
    let rest := signed.2
    let low := rest.map ascii_lower
    if low = ['i', 'n', 'f'] || low = "infinity".data then some (.inf neg)
    else if low = ['n', 'a', 'n'] then some .nan
    else
      match rust_parse_number rest with
      | some q => some (.finite (if neg then -q else q))
      | none => none

/-! ## Tokens and the tokenizer (`src/tokenizer.rs`) -/

/-- `Token<T>` from `src/tokenizer.rs`. -/
inductive Token where
  | Comma
  | Number (v : FloatVal)
  | ParenClose
  | ParenOpen
  | Word (s : String)
  deriving DecidableEq, Repr

/-- Accumulation loop of `Tokens::read_until_whitespace`: peel
characters off the stream; a marker stops the run unconsumed, a
whitespace character stops it consumed but not appended, anything else
is appended. Returns the accumulated run and the remaining stream. -/
def read_until_aux : List Char → List Char × List Char
  | [] => ([], [])
  | c :: rest =>
    if is_marker c then ([], c :: rest)
    else if is_whitespace c then ([], rest)
    else
      let p := read_until_aux rest
      (c :: p.1, p.2)

/-- `Tokens::read_until_whitespace` from `src/tokenizer.rs`: the
accumulated run, as `None` when empty (the caller applies
`unwrap_or_default`), plus the remaining character stream. -/
def read_until_whitespace (cs : List Char) : Option (List Char) × List Char :=
  let p := read_until_aux cs
  (if p.1.isEmpty then none else some p.1, p.2)

/-- `<Tokens as Iterator>::next` from `src/tokenizer.rs`: skip
whitespace, then classify the next character; returns the token and the
remaining character stream, or `none` when the iterator stops (end of
input, NUL, or a malformed numeric run). -/
def next_token : List Char → Option (Token × List Char)
  | [] => none
  | c :: rest =>
    if is_whitespace c then next_token rest
    else if c = '\x00' then none
    else if c = '(' then some (.ParenOpen, rest)
    else if c = ')' then some (.ParenClose, rest)
    else if c = ',' then some (.Comma, rest)
    else if is_numberlike c then
      let p := read_until_whitespace rest
      let number := c :: (p.1.getD [])
      match rust_parse_float (number.dropWhile (· = '+')) with
      | some v => some (.Number v, p.2)
      | none => none
    else
      let p := read_until_whitespace rest
      some (.Word ⟨c :: (p.1.getD [])⟩, p.2)

/-- One step of iteration consumes at least one character. -/
theorem read_until_aux_len (cs : List Char) :
    (read_until_aux cs).2.length ≤ cs.length := by
  induction cs with
  | nil => simp [read_until_aux]
  | cons c rest ih =>
    simp only [read_until_aux]
    split
    · simp
    · split
      · simp
      · simpa using Nat.le_succ_of_le ih

theorem next_token_len {cs rest : List Char} {t : Token}
    (h : next_token cs = some (t, rest)) : rest.length < cs.length := by
  induction cs with
  | nil => simp [next_token] at h
  | cons c cs ih =>
    simp only [next_token] at h
    split at h
    · exact Nat.lt_succ_of_lt (ih h)
    · split at h
      · exact absurd h (by simp)
      · split at h
        · cases h; simp
        · split at h
          · cases h; simp
          · split at h
            · cases h; simp
            · split at h
              · split at h
                · cases h
                  simpa [read_until_whitespace] using
                    Nat.lt_succ_of_le (read_until_aux_len cs)
                · exact absurd h (by simp)
              · cases h
                simpa [read_until_whitespace] using
                  Nat.lt_succ_of_le (read_until_aux_len cs)

/-- Fuel-indexed iteration of `next_token`; `tokenize` supplies enough
fuel that the fuel never runs out (each step consumes at least one
character). -/
def tokenize_fuel : ℕ → List Char → List Token
  | 0, _ => []
  | n + 1, cs =>
    match next_token cs with
    | none => []
    | some (t, rest) => t :: tokenize_fuel n rest

/-- Collecting the `Tokens` iterator of `src/tokenizer.rs` into a list:
pull tokens until `next` returns `None`. -/
def tokenize (cs : List Char) : List Token :=
  tokenize_fuel (cs.length + 1) cs

theorem tokenize_fuel_mono :
    ∀ n m cs, cs.length < n → cs.length < m →
      tokenize_fuel n cs = tokenize_fuel m cs := by
  intro n
  induction n with
  | zero => intro m cs h; omega
  | succ n ih =>
    intro m cs h hm
    cases m with
    | zero => omega
    | succ m =>
      simp only [tokenize_fuel]
      cases hnt : next_token cs with
      | none => rfl
      | some p =>
        obtain ⟨t, rest⟩ := p
        have hlen := next_token_len hnt
        simp only []
        rw [ih m rest (by omega) (by omega)]

/-- Unfolding equation for `tokenize`. -/
theorem tokenize_eq (cs : List Char) :
    tokenize cs =
      match next_token cs with
      | none => []
      | some (t, rest) => t :: tokenize rest := by
  show tokenize_fuel (cs.length + 1) cs = _
  simp only [tokenize_fuel]
  cases hnt : next_token cs with
  | none => rfl
  | some p =>
    obtain ⟨t, rest⟩ := p
    have hlen := next_token_len hnt
    simp only []
    rw [tokenize_fuel_mono cs.length (rest.length + 1) rest (by omega) (by omega)]
    rfl

/-! ## Geometry types and parsers

`types/mod.rs`, `types/point.rs` and `types/linestring.rs` are not in
the sources; `Coord`, `Point`, `LineString`, the `FromTokens`
combinators and their parsers are modelled from the spec (§3, §4.3).
`MultiLineString` is embedded from `src/types/multilinestring.rs`. -/

/-- Modelled from the spec: a Coordinate has mandatory `x`, `y` and
optional `z`, `m` (`types/point.rs` / the coordinate type file is
missing from the sources). -/
structure Coord where
  x : FloatVal
  y : FloatVal
  z : Option FloatVal
  m : Option FloatVal
  deriving DecidableEq, Repr

/-- `Point` (spec §3; `types/point.rs` is missing from the sources). -/
structure Point where
  coord : Coord
  deriving DecidableEq, Repr

/-- `LineString` (spec §3; `types/linestring.rs` is missing from the
sources). -/
structure LineString where
  coords : List Coord
  deriving DecidableEq, Repr

/-- `MultiLineString` from `src/types/multilinestring.rs`. -/
structure MultiLineString where
  lines : List LineString
  deriving DecidableEq, Repr

deriving instance DecidableEq for Except

/-- Result of a body parser: the parsed value plus the unconsumed
tokens, or a static error message (Rust's
`Result<Self, &'static str>`, with the cursor's remaining tokens made
explicit). -/
abbrev ParseRes (α : Type) := Except String (α × List Token)

/-- Modelled from the spec: `FromTokens::from_tokens_with_parens`
(`types/mod.rs` is missing from the sources) — require and consume a
`ParenOpen`, run the body parser, require and consume a matching
`ParenClose`. -/
def from_tokens_with_parens (body : List Token → ParseRes α) :
    List Token → ParseRes α
  | .ParenOpen :: rest =>
    match body rest with
    | .ok (a, .ParenClose :: rest') => .ok (a, rest')
    | .ok _ => .error "Expected closing parenthesis"
    | .error e => .error e
  | _ => .error "Missing opening parenthesis"

/-- Fuel-indexed loop of `FromTokens::comma_many`; each iteration that
continues consumes the separating `Comma`, so fuel `ts.length + 1`
never runs out for a non-lengthening element parser (see
`comma_many_eq`). -/
def comma_many_fuel (p : List Token → ParseRes α) :
    ℕ → List Token → ParseRes (List α)
  | 0, _ => .error "comma_many: out of fuel"
  | n + 1, ts =>
    match p ts with
    | .error e => .error e
    | .ok (a, rest) =>
      match rest with
      | .Comma :: rest' =>
        match comma_many_fuel p n rest' with
        | .ok (l, r) => .ok (a :: l, r)
        | .error e => .error e
      | _ => .ok ([a], rest)

/-- Modelled from the spec: `FromTokens::comma_many` (`types/mod.rs` is
missing from the sources) — parse one element, then repeatedly consume
a `Comma` and parse another; an immediate failure of the very first
element is a parse failure. -/
def comma_many (p : List Token → ParseRes α) (ts : List Token) :
    ParseRes (List α) :=
  comma_many_fuel p (ts.length + 1) ts

/-- Modelled from the spec: coordinate body parsing — exactly two
mandatory numbers `x`, `y`; the minimal grammar always yields
`z = None`, `m = None`. -/
def Coord.from_tokens : List Token → ParseRes Coord
  | .Number x :: .Number y :: rest =>
    .ok ({ x := x, y := y, z := none, m := none }, rest)
  | _ => .error "Expected a number"

/-- Modelled from the spec: Point body — exactly one coordinate. -/
def Point.from_tokens (ts : List Token) : ParseRes Point :=
  match Coord.from_tokens ts with
  | .ok (c, rest) => .ok ({ coord := c }, rest)
  | .error e => .error e

/-- Modelled from the spec: LineString body — `comma_many` over bare
coordinate parsing. -/
def LineString.from_tokens (ts : List Token) : ParseRes LineString :=
  match comma_many Coord.from_tokens ts with
  | .ok (l, rest) => .ok ({ coords := l }, rest)
  | .error e => .error e

/-- `MultiLineString::from_tokens` from `src/types/multilinestring.rs`:
`comma_many` over `LineString::from_tokens_with_parens`. -/
def MultiLineString.from_tokens (ts : List Token) : ParseRes MultiLineString :=
  match comma_many (from_tokens_with_parens LineString.from_tokens) ts with
  | .ok (l, rest) => .ok ({ lines := l }, rest)
  | .error e => .error e

/-! ## Top-level dispatcher (`src/lib.rs`) -/

/-- `WktItem` from `src/lib.rs`. The enum in `src/lib.rs` declares only
`Point` and `LineString`; `src/types/multilinestring.rs` nevertheless
constructs a `WktItem::MultiLineString` variant in its `as_item`, so
the embedding carries all three (this mismatch between the two files is
itself one of the verified findings). -/
inductive WktItem where
  | Point (p : Point)
  | LineString (l : LineString)
  | MultiLineString (m : MultiLineString)
  deriving DecidableEq, Repr

/-- `Point::as_item` (missing from the sources, per spec §9). -/
def Point.as_item (p : Point) : WktItem := .Point p

/-- `LineString::as_item` (missing from the sources, per spec §9). -/
def LineString.as_item (l : LineString) : WktItem := .LineString l

/-- `MultiLineString::as_item` from `src/types/multilinestring.rs`. -/
def MultiLineString.as_item (m : MultiLineString) : WktItem :=
  .MultiLineString m

/-- `WktItem::from_word_and_tokens` from `src/lib.rs`: dispatch on the
(already upper-cased) keyword; the `match` covers only `"POINT"` and
`"LINESTRING"`, everything else is the unknown-type error. The tokens
left unconsumed by the delegated parser are dropped, as the Rust
function returns only `Result<Self, &'static str>`. -/
def WktItem.from_word_and_tokens (word : String) (tokens : List Token) :
    Except String WktItem :=
  if word = "POINT" then
    match from_tokens_with_parens Point.from_tokens tokens with
    | .ok (p, _) => .ok p.as_item
    | .error e => .error e
  else if word = "LINESTRING" then
    match from_tokens_with_parens LineString.from_tokens tokens with
    | .ok (l, _) => .ok l.as_item
    | .error e => .error e
  else .error "Invalid type encountered"

/-- `Wkt` from `src/lib.rs`: the document, a list of items. -/
structure Wkt where
  items : List WktItem
  deriving DecidableEq, Repr

/-- Rust `str::is_ascii`: every character is in the ASCII range. -/
def is_ascii (s : String) : Bool :=
  s.data.all (fun c => c.toNat ≤ 127)

/-- One character of Rust `str::to_ascii_uppercase`. -/
def ascii_upper (c : Char) : Char :=
  if 'a' ≤ c && c ≤ 'z' then Char.ofNat (c.toNat - 32) else c

/-- Rust `str::to_ascii_uppercase`. -/
def to_ascii_uppercase (s : String) : String :=
  ⟨s.data.map ascii_upper⟩

/-- `Wkt::from_tokens` from `src/lib.rs`: an empty token stream yields
an empty document; a leading `Word` is ASCII-checked, upper-cased and
dispatched, and the single parsed item is appended; any other leading
token is a format error. Tokens after the parsed item are ignored. -/
def Wkt.from_tokens (ts : List Token) : Except String Wkt :=
  match ts with
  | [] => .ok { items := [] }
  | .Word w :: rest =>
    if !is_ascii w then .error "Encountered non-ascii word"
    else
      match WktItem.from_word_and_tokens (to_ascii_uppercase w) rest with
      | .ok item => .ok { items := [item] }
      | .error e => .error e
  | _ :: _ => .error "Invalid WKT format"

/-- `Wkt::from_str` from `src/lib.rs`: tokenize, then parse. -/
def Wkt.from_str (s : String) : Except String Wkt :=
  Wkt.from_tokens (tokenize s.data)

/-! ## Character-class bridge lemmas -/

theorem char_eq_iff_toNat {c d : Char} : c = d ↔ c.toNat = d.toNat := by
  rw [Char.ext_iff, UInt32.ext_iff]
  exact Iff.rfl

theorem is_whitespace_iff {c : Char} :
    is_whitespace c = true ↔
      c.toNat = 9 ∨ c.toNat = 10 ∨ c.toNat = 13 ∨ c.toNat = 32 := by
  simp only [is_whitespace, Bool.or_eq_true, decide_eq_true_eq, char_eq_iff_toNat,
    (by decide : ('\n').toNat = 10), (by decide : ('\r').toNat = 13),
    (by decide : ('\t').toNat = 9), (by decide : (' ').toNat = 32)]
  tauto

theorem is_marker_iff {c : Char} :
    is_marker c = true ↔
      c.toNat = 0 ∨ c.toNat = 40 ∨ c.toNat = 41 ∨ c.toNat = 44 := by
  simp only [is_marker, Bool.or_eq_true, decide_eq_true_eq, char_eq_iff_toNat,
    (by decide : ('\x00').toNat = 0), (by decide : ('(').toNat = 40),
    (by decide : (')').toNat = 41), (by decide : (',').toNat = 44)]
  tauto

/-- Every Unicode-numeric character's codepoint is at least `'0'` —
nothing below 0x30 lies in Nd ∪ Nl ∪ No. -/
theorem char_is_numeric_ge {c : Char} (h : char_is_numeric c = true) :
    48 ≤ c.toNat := by
  simp only [char_is_numeric, Bool.or_eq_true, Bool.and_eq_true,
    decide_eq_true_eq] at h
  omega

/-- Within ASCII, the Unicode-numeric characters are exactly the
decimal digits. -/
theorem char_is_numeric_ascii_digit {c : Char} (hc : c.toNat ≤ 127) :
    char_is_numeric c = true ↔ (48 ≤ c.toNat ∧ c.toNat ≤ 57) := by
  simp only [char_is_numeric, Bool.or_eq_true, Bool.and_eq_true,
    decide_eq_true_eq]
  omega

theorem is_numberlike_iff {c : Char} :
    is_numberlike c = true ↔
      char_is_numeric c = true ∨ c.toNat = 46 ∨ c.toNat = 45 ∨ c.toNat = 43 := by
  simp only [is_numberlike, Bool.or_eq_true, decide_eq_true_eq, char_eq_iff_toNat,
    (by decide : ('.').toNat = 46), (by decide : ('-').toNat = 45),
    (by decide : ('+').toNat = 43)]
  tauto

/-- A number-like character is neither whitespace nor a marker. -/
theorem numberlike_not_ws_marker {c : Char} (h : is_numberlike c = true) :
    is_whitespace c = false ∧ is_marker c = false := by
  rw [is_numberlike_iff] at h
  have h48 : 48 ≤ c.toNat ∨ c.toNat = 46 ∨ c.toNat = 45 ∨ c.toNat = 43 := by
    rcases h with h | h
    · exact Or.inl (char_is_numeric_ge h)
    · tauto
  constructor
  · rw [← Bool.not_eq_true, is_whitespace_iff]
    omega
  · rw [← Bool.not_eq_true, is_marker_iff]
    omega

theorem isAlpha_toNat {c : Char} (h : c.isAlpha = true) :
    (65 ≤ c.toNat ∧ c.toNat ≤ 90) ∨ (97 ≤ c.toNat ∧ c.toNat ≤ 122) := by
  simp only [Char.isAlpha, Char.isUpper, Char.isLower, Bool.or_eq_true,
    Bool.and_eq_true, decide_eq_true_eq] at h
  exact h

theorem isDigit_toNat {c : Char} (h : c.isDigit = true) :
    48 ≤ c.toNat ∧ c.toNat ≤ 57 := by
  simp only [Char.isDigit, Bool.and_eq_true, decide_eq_true_eq] at h
  exact h

/-! ## Tokenizer structure lemmas -/

theorem read_until_aux_take (cs : List Char) :
    (read_until_aux cs).1 = cs.takeWhile word_char := by
  induction cs with
  | nil => rfl
  | cons c rest ih =>
    by_cases hm : is_marker c
    · simp [read_until_aux, hm, List.takeWhile_cons, word_char]
    · by_cases hw : is_whitespace c
      · simp [read_until_aux, hm, hw, List.takeWhile_cons, word_char]
      · simp [read_until_aux, hm, hw, List.takeWhile_cons, word_char, ih]

theorem read_until_getD (cs : List Char) :
    (read_until_whitespace cs).1.getD [] = (read_until_aux cs).1 := by
  unfold read_until_whitespace
  by_cases h : (read_until_aux cs).1.isEmpty
  · simp [h, List.isEmpty_iff.mp h]
  · simp [h]

theorem read_until_snd (cs : List Char) :
    (read_until_whitespace cs).2 = (read_until_aux cs).2 := rfl

theorem read_until_aux_all (l : List Char)
    (h : ∀ c ∈ l, word_char c = true) : read_until_aux l = (l, []) := by
  induction l with
  | nil => rfl
  | cons c rest ih =>
    have hc : word_char c = true := h c (by simp)
    have hm : is_marker c = false := by
      simp only [word_char, Bool.and_eq_true, Bool.not_eq_true'] at hc
      exact hc.1
    have hw : is_whitespace c = false := by
      simp only [word_char, Bool.and_eq_true, Bool.not_eq_true'] at hc
      exact hc.2
    simp [read_until_aux, hm, hw, ih (fun d hd => h d (by simp [hd]))]

theorem read_until_aux_suffix (cs : List Char) :
    (read_until_aux cs).2.IsSuffix cs := by
  induction cs with
  | nil => exact List.suffix_rfl
  | cons c rest ih =>
    by_cases hm : is_marker c
    · simp [read_until_aux, hm]
    · by_cases hw : is_whitespace c
      · simp only [read_until_aux, hm, hw]
        simp only [Bool.false_eq_true, if_false, if_true]
        exact List.suffix_cons c rest
      · simp only [read_until_aux, hm, hw, Bool.false_eq_true, if_false]
        exact ih.trans (List.suffix_cons c rest)

/-- The `Word` branch of `next`: a character that is not whitespace,
not a marker and not number-like starts a word. -/
theorem next_token_word {c : Char} (rest : List Char)
    (hw : is_whitespace c = false) (hm : is_marker c = false)
    (hn : is_numberlike c = false) :
    next_token (c :: rest) =
      some (.Word ⟨c :: (read_until_aux rest).1⟩, (read_until_aux rest).2) := by
  have h0 : ¬(c = '\x00') := fun h => by subst h; exact absurd hm (by decide)
  have h1 : ¬(c = '(') := fun h => by subst h; exact absurd hm (by decide)
  have h2 : ¬(c = ')') := fun h => by subst h; exact absurd hm (by decide)
  have h3 : ¬(c = ',') := fun h => by subst h; exact absurd hm (by decide)
  simp only [next_token, hw, hn, h0, h1, h2, h3, Bool.false_eq_true, if_false,
    read_until_getD, read_until_snd]

/-- The numeric branch of `next`: a number-like character starts a
numeric run whose text is handed to float parsing. -/
theorem next_token_number {c : Char} (rest : List Char)
    (hn : is_numberlike c = true) :
    next_token (c :: rest) =
      match rust_parse_float
          ((c :: (read_until_aux rest).1).dropWhile (· = '+')) with
      | some v => some (.Number v, (read_until_aux rest).2)
      | none => none := by
  obtain ⟨hw, hm⟩ := numberlike_not_ws_marker hn
  have h0 : ¬(c = '\x00') := fun h => by subst h; exact absurd hm (by decide)
  have h1 : ¬(c = '(') := fun h => by subst h; exact absurd hm (by decide)
  have h2 : ¬(c = ')') := fun h => by subst h; exact absurd hm (by decide)
  have h3 : ¬(c = ',') := fun h => by subst h; exact absurd hm (by decide)
  simp only [next_token, hw, hn, h0, h1, h2, h3, Bool.false_eq_true, if_false,
    if_true, read_until_getD, read_until_snd]

theorem next_token_ws {c : Char} (rest : List Char)
    (hw : is_whitespace c = true) :
    next_token (c :: rest) = next_token rest := by
  simp [next_token, hw]

theorem next_token_suffix :
    ∀ {cs r : List Char} {t : Token},
      next_token cs = some (t, r) → r.IsSuffix cs := by
  intro cs
  induction cs with
  | nil => intro r t h; simp [next_token] at h
  | cons c rest ih =>
    intro r t h
    by_cases hw : is_whitespace c
    · rw [next_token_ws rest hw] at h
      exact (ih h).trans (List.suffix_cons c rest)
    · simp only [next_token, hw, Bool.false_eq_true, if_false] at h
      split at h
      · exact absurd h (by simp)
      · split at h
        · cases h; exact List.suffix_cons c rest
        · split at h
          · cases h; exact List.suffix_cons c rest
          · split at h
            · cases h; exact List.suffix_cons c rest
            · split at h
              · split at h
                · cases h
                  rw [read_until_snd]
                  exact (read_until_aux_suffix rest).trans (List.suffix_cons c rest)
                · exact absurd h (by simp)
              · cases h
                rw [read_until_snd]
                exact (read_until_aux_suffix rest).trans (List.suffix_cons c rest)

/-! ## Claims -/

/-- C1: the spec's keyword set includes `MULTILINESTRING` and the claim
asserts the dispatcher delegates it to
`MultiLineString::from_tokens_with_parens`, succeeding on a
structurally valid body. The code does not: `from_word_and_tokens` in
`src/lib.rs` matches only `"POINT"` and `"LINESTRING"` and answers the
unknown-type error for `MULTILINESTRING`, even though
`src/types/multilinestring.rs` implements the parser (which does accept
the body, second conjunct) and constructs a `WktItem::MultiLineString`
variant absent from the enum in `src/lib.rs`. -/
theorem C1_multilinestring_dispatch :
    Wkt.from_str "MULTILINESTRING ((0 0, 1 1))" =
      .error "Invalid type encountered" ∧
    from_tokens_with_parens MultiLineString.from_tokens
        (tokenize "((0 0, 1 1))".data) =
      .ok ({ lines := [{ coords :=
              [{ x := .finite 0, y := .finite 0, z := none, m := none },
               { x := .finite 1, y := .finite 1, z := none, m := none }] }] },
           []) := by
  exact ⟨by decide, by decide⟩

/-- C3: a numeric-looking run that fails to parse as a float makes
`next()` return `None`, so iteration drops the whole remainder:
`"4.2p 7"` tokenizes to the empty sequence (no `Number(7.0)`), and
parsing an input that begins with such a run succeeds with an empty
document. -/
theorem C3_malformed_number_discards_remainder :
    tokenize "4.2p 7".data = [] ∧
    Wkt.from_str "4.2p 7" = .ok { items := [] } := by
  exact ⟨by decide, by decide⟩

/-- C4: `"4.2"` and `"+4.2"` tokenize to `[Number(4.2)]` (the leading
`+` is stripped), `".4 -2"` tokenizes to `[Number(0.4), Number(-2.0)]`,
and `"4.2p"` tokenizes to the empty sequence. -/
theorem C4_numeric_literal_tokenization :
    tokenize "4.2".data = [Token.Number (.finite (Rat.divInt 21 5))] ∧
    tokenize "+4.2".data = [Token.Number (.finite (Rat.divInt 21 5))] ∧
    tokenize ".4 -2".data =
      [Token.Number (.finite (Rat.divInt 2 5)), Token.Number (.finite (-2))] ∧
    tokenize "4.2p".data = [] := by
  refine ⟨by decide, by decide, by decide, by decide⟩

/-- C6: parsing `"POINT (10 -20)"` succeeds with a document holding one
Point whose coordinate is `x = 10`, `y = -20`, `z = None`, `m = None`. -/
theorem C6_basic_point :
    Wkt.from_str "POINT (10 -20)" =
      .ok { items := [.Point { coord :=
        { x := .finite 10, y := .finite (-20), z := none, m := none } }] } := by
  decide

/-- C10: an input producing no tokens at all parses to a document with
zero geometries — in particular the empty string and whitespace-only
input — rather than an error. -/
theorem C10_no_tokens_empty_document :
    (∀ s : String, tokenize s.data = [] → Wkt.from_str s = .ok { items := [] }) ∧
    Wkt.from_str "" = .ok { items := [] } ∧
    Wkt.from_str " \t\r\n " = .ok { items := [] } := by
  refine ⟨fun s h => ?_, by decide, by decide⟩
  unfold Wkt.from_str
  rw [h]
  rfl

/-- C10, witness: the general statement applied to a concrete
whitespace-only input. -/
theorem C10_no_tokens_empty_document_witness :
    Wkt.from_str "  " = .ok { items := [] } :=
  C10_no_tokens_empty_document.1 "  " (by decide)

/-- C9: a leading token that is not a `Word` is the format error; a
leading ASCII word whose upper-casing is no known keyword is the
unknown-type error; a leading non-ASCII word is the dedicated
non-ASCII error (issued before any case-folding). -/
theorem C9_dispatcher_errors :
    (∀ (v : FloatVal) (ts : List Token),
      Wkt.from_tokens (.Number v :: ts) = .error "Invalid WKT format") ∧
    (∀ ts : List Token,
      Wkt.from_tokens (.ParenOpen :: ts) = .error "Invalid WKT format") ∧
    (∀ ts : List Token,
      Wkt.from_tokens (.ParenClose :: ts) = .error "Invalid WKT format") ∧
    (∀ ts : List Token,
      Wkt.from_tokens (.Comma :: ts) = .error "Invalid WKT format") ∧
    (∀ (w : String) (ts : List Token), is_ascii w = false →
      Wkt.from_tokens (.Word w :: ts) = .error "Encountered non-ascii word") ∧
    (∀ (w : String) (ts : List Token), is_ascii w = true →
      to_ascii_uppercase w ≠ "POINT" → to_ascii_uppercase w ≠ "LINESTRING" →
      Wkt.from_tokens (.Word w :: ts) = .error "Invalid type encountered") := by
  refine ⟨fun v ts => rfl, fun ts => rfl, fun ts => rfl, fun ts => rfl,
    fun w ts h => ?_, fun w ts h h1 h2 => ?_⟩
  · simp [Wkt.from_tokens, h]
  · simp [Wkt.from_tokens, h, WktItem.from_word_and_tokens, h1, h2]

/-- C9, witness: an unknown ASCII keyword, a non-ASCII word and a
non-word leading token each hit their respective error. -/
theorem C9_dispatcher_errors_witness :
    Wkt.from_tokens [.Word "POLYGON"] = .error "Invalid type encountered" ∧
    Wkt.from_tokens [.Word "PÖINT"] = .error "Encountered non-ascii word" ∧
    Wkt.from_tokens [.ParenOpen] = .error "Invalid WKT format" :=
  ⟨C9_dispatcher_errors.2.2.2.2.2 "POLYGON" [] (by decide) (by decide) (by decide),
   C9_dispatcher_errors.2.2.2.2.1 "PÖINT" [] (by decide),
   C9_dispatcher_errors.2.2.1 []⟩

/-! ## Stability of the parsers under appended tokens (for C7) -/

theorem Coord.from_tokens_len :
    ∀ (ts : List Token) (a : Coord) (r : List Token),
      Coord.from_tokens ts = .ok (a, r) → r.length ≤ ts.length := by
  intro ts a r h
  match ts with
  | .Number x :: .Number y :: rest =>
    simp only [Coord.from_tokens, Except.ok.injEq, Prod.mk.injEq] at h
    rw [← h.2]
    simp
    omega
  | [] | [.Number x] => simp [Coord.from_tokens] at h
  | .Number x :: .Comma :: _ | .Number x :: .ParenClose :: _
  | .Number x :: .ParenOpen :: _ | .Number x :: .Word s :: _ =>
    simp [Coord.from_tokens] at h
  | .Comma :: _ | .ParenClose :: _ | .ParenOpen :: _ | .Word s :: _ =>
    simp [Coord.from_tokens] at h

theorem coord_from_tokens_append :
    ∀ (ts ex : List Token) (a : Coord) (r : List Token),
      Coord.from_tokens ts = .ok (a, r) →
      Coord.from_tokens (ts ++ ex) = .ok (a, r ++ ex) := by
  intro ts ex a r h
  match ts with
  | .Number x :: .Number y :: rest =>
    simp only [Coord.from_tokens, Except.ok.injEq, Prod.mk.injEq] at h
    simp [Coord.from_tokens, ← h.1, ← h.2]
  | [] | [.Number x] => simp [Coord.from_tokens] at h
  | .Number x :: .Comma :: _ | .Number x :: .ParenClose :: _
  | .Number x :: .ParenOpen :: _ | .Number x :: .Word s :: _ =>
    simp [Coord.from_tokens] at h
  | .Comma :: _ | .ParenClose :: _ | .ParenOpen :: _ | .Word s :: _ =>
    simp [Coord.from_tokens] at h

theorem comma_many_fuel_mono {α : Type} (p : List Token → ParseRes α)
    (hp : ∀ ts a r, p ts = .ok (a, r) → r.length ≤ ts.length) :
    ∀ (n m : ℕ) (ts : List Token), ts.length < n → ts.length < m →
      comma_many_fuel p n ts = comma_many_fuel p m ts := by
  intro n
  induction n with
  | zero => intro m ts h; omega
  | succ n ih =>
    intro m ts h hm
    cases m with
    | zero => omega
    | succ m =>
      simp only [comma_many_fuel]
      cases hpts : p ts with
      | error e => rfl
      | ok pr =>
        obtain ⟨a, rest⟩ := pr
        have hr := hp ts a rest hpts
        cases rest with
        | nil => rfl
        | cons t rest' =>
          cases t with
          | Comma =>
            simp only []
            rw [ih m rest' (by simp at hr; omega) (by simp at hr; omega)]
          | Number v => rfl
          | ParenClose => rfl
          | ParenOpen => rfl
          | Word s => rfl

/-- Unfolding equation for `comma_many`, valid for any non-lengthening
element parser. -/
theorem comma_many_eq {α : Type} (p : List Token → ParseRes α)
    (hp : ∀ ts a r, p ts = .ok (a, r) → r.length ≤ ts.length) (ts : List Token) :
    comma_many p ts =
      match p ts with
      | .error e => .error e
      | .ok (a, rest) =>
        match rest with
        | .Comma :: rest' =>
          match comma_many p rest' with
          | .ok (l, r) => .ok (a :: l, r)
          | .error e => .error e
        | _ => .ok ([a], rest) := by
  show comma_many_fuel p (ts.length + 1) ts = _
  simp only [comma_many_fuel]
  cases hpts : p ts with
  | error e => rfl
  | ok pr =>
    obtain ⟨a, rest⟩ := pr
    have hr := hp ts a rest hpts
    cases rest with
    | nil => rfl
    | cons t rest' =>
      cases t with
      | Comma =>
        simp only []
        rw [comma_many_fuel_mono p hp ts.length (rest'.length + 1) rest'
          (by simp at hr; omega) (by omega)]
        rfl
      | Number v => rfl
      | ParenClose => rfl
      | ParenOpen => rfl
      | Word s => rfl

/-- `comma_many` is stable under appending tokens, provided the parse
did not stop at the very end of the input (the stopping decision is a
lookahead for `Comma`). -/
theorem comma_many_append {α : Type} (p : List Token → ParseRes α)
    (hp : ∀ ts a r, p ts = .ok (a, r) → r.length ≤ ts.length)
    (hs : ∀ ts ex a r, p ts = .ok (a, r) → p (ts ++ ex) = .ok (a, r ++ ex)) :
    ∀ (ts ex : List Token) (l : List α) (r : List Token),
      comma_many p ts = .ok (l, r) → r ≠ [] →
      comma_many p (ts ++ ex) = .ok (l, r ++ ex) := by
  have main : ∀ (n : ℕ) (ts ex : List Token) (l : List α) (r : List Token),
      ts.length ≤ n → comma_many p ts = .ok (l, r) → r ≠ [] →
      comma_many p (ts ++ ex) = .ok (l, r ++ ex) := by
    intro n
    induction n with
    | zero =>
      intro ts ex l r hn h hr
      have hts : ts = [] := List.length_eq_zero.mp (Nat.le_zero.mp hn)
      subst hts
      rw [comma_many_eq p hp] at h
      cases hpts : p [] with
      | error e => rw [hpts] at h; exact absurd h (by simp)
      | ok pr =>
        obtain ⟨a, rest⟩ := pr
        have := hp [] a rest hpts
        have hrest : rest = [] := List.length_eq_zero.mp (by simpa using this)
        subst hrest
        rw [hpts] at h
        simp only [Except.ok.injEq, Prod.mk.injEq] at h
        exact absurd h.2.symm hr
    | succ n ih =>
      intro ts ex l r hn h hr
      rw [comma_many_eq p hp] at h
      rw [comma_many_eq p hp]
      cases hpts : p ts with
      | error e => rw [hpts] at h; exact absurd h (by simp)
      | ok pr =>
        obtain ⟨a, rest⟩ := pr
        rw [hpts] at h
        have hlen := hp ts a rest hpts
        rw [hs ts ex a rest hpts]
        cases rest with
        | nil =>
          simp only [Except.ok.injEq, Prod.mk.injEq] at h
          exact absurd h.2.symm hr
        | cons t rest' =>
          cases t with
          | Comma =>
            simp only [List.cons_append] at h ⊢
            cases hcm : comma_many p rest' with
            | error e => rw [hcm] at h; exact absurd h (by simp)
            | ok pr2 =>
              obtain ⟨l', r''⟩ := pr2
              rw [hcm] at h
              simp only [Except.ok.injEq, Prod.mk.injEq] at h
              obtain ⟨hl, hr''⟩ := h
              subst hr''
              subst hl
              rw [ih rest' ex l' r'' (by simp at hlen; omega) hcm hr]
          | Number v =>
            simp only [Except.ok.injEq, Prod.mk.injEq] at h
            obtain ⟨hl, hrr⟩ := h
            subst hrr
            simp [← hl]
          | ParenClose =>
            simp only [Except.ok.injEq, Prod.mk.injEq] at h
            obtain ⟨hl, hrr⟩ := h
            subst hrr
            simp [← hl]
          | ParenOpen =>
            simp only [Except.ok.injEq, Prod.mk.injEq] at h
            obtain ⟨hl, hrr⟩ := h
            subst hrr
            simp [← hl]
          | Word s =>
            simp only [Except.ok.injEq, Prod.mk.injEq] at h
            obtain ⟨hl, hrr⟩ := h
            subst hrr
            simp [← hl]
  intro ts ex l r h hr
  exact main ts.length ts ex l r le_rfl h hr

theorem from_tokens_with_parens_append {α : Type}
    (body : List Token → ParseRes α)
    (hb : ∀ ts ex a r, body ts = .ok (a, r) → r ≠ [] →
      body (ts ++ ex) = .ok (a, r ++ ex)) :
    ∀ (ts ex : List Token) (a : α) (r : List Token),
      from_tokens_with_parens body ts = .ok (a, r) →
      from_tokens_with_parens body (ts ++ ex) = .ok (a, r ++ ex) := by
  intro ts ex a r h
  match ts with
  | [] => simp [from_tokens_with_parens] at h
  | .Comma :: _ | .Number _ :: _ | .ParenClose :: _ | .Word _ :: _ =>
    simp [from_tokens_with_parens] at h
  | .ParenOpen :: rest =>
    simp only [from_tokens_with_parens, List.cons_append] at h ⊢
    cases hbr : body rest with
    | error e => rw [hbr] at h; exact absurd h (by simp)
    | ok pr =>
      obtain ⟨a', rest2⟩ := pr
      rw [hbr] at h
      cases rest2 with
      | nil => exact absurd h (by simp)
      | cons t rest' =>
        cases t with
        | ParenClose =>
          simp only [Except.ok.injEq, Prod.mk.injEq] at h
          obtain ⟨ha, hrr⟩ := h
          subst ha hrr
          have hb2 := hb rest ex a' (.ParenClose :: rest') hbr (by simp)
          simp only [List.cons_append] at hb2
          rw [hb2]
        | Comma => exact absurd h (by simp)
        | Number v => exact absurd h (by simp)
        | ParenOpen => exact absurd h (by simp)
        | Word s => exact absurd h (by simp)

theorem point_from_tokens_append :
    ∀ (ts ex : List Token) (a : Point) (r : List Token),
      Point.from_tokens ts = .ok (a, r) →
      Point.from_tokens (ts ++ ex) = .ok (a, r ++ ex) := by
  intro ts ex a r h
  unfold Point.from_tokens at h ⊢
  cases hc : Coord.from_tokens ts with
  | error e => rw [hc] at h; exact absurd h (by simp)
  | ok pr =>
    obtain ⟨c, rest⟩ := pr
    rw [hc] at h
    simp only [Except.ok.injEq, Prod.mk.injEq] at h
    obtain ⟨ha, hrr⟩ := h
    subst hrr
    subst ha
    rw [coord_from_tokens_append ts ex c rest hc]

theorem linestring_from_tokens_append :
    ∀ (ts ex : List Token) (a : LineString) (r : List Token),
      LineString.from_tokens ts = .ok (a, r) → r ≠ [] →
      LineString.from_tokens (ts ++ ex) = .ok (a, r ++ ex) := by
  intro ts ex a r h hr
  unfold LineString.from_tokens at h ⊢
  cases hc : comma_many Coord.from_tokens ts with
  | error e => rw [hc] at h; exact absurd h (by simp)
  | ok pr =>
    obtain ⟨l, rest⟩ := pr
    rw [hc] at h
    simp only [Except.ok.injEq, Prod.mk.injEq] at h
    obtain ⟨ha, hrr⟩ := h
    subst hrr
    subst ha
    rw [comma_many_append Coord.from_tokens Coord.from_tokens_len
      coord_from_tokens_append ts ex l rest hc hr]

theorem from_word_and_tokens_append
    (w : String) (ts ex : List Token) (item : WktItem)
    (h : WktItem.from_word_and_tokens w ts = .ok item) :
    WktItem.from_word_and_tokens w (ts ++ ex) = .ok item := by
  unfold WktItem.from_word_and_tokens at h ⊢
  by_cases hw : w = "POINT"
  · simp only [if_pos hw] at h ⊢
    cases hp : from_tokens_with_parens Point.from_tokens ts with
    | error e => rw [hp] at h; exact absurd h (by simp)
    | ok pr =>
      obtain ⟨p, r⟩ := pr
      rw [hp] at h
      rw [from_tokens_with_parens_append Point.from_tokens
        (fun ts ex a r h _ => point_from_tokens_append ts ex a r h) ts ex p r hp]
      exact h
  · simp only [if_neg hw] at h ⊢
    by_cases hl : w = "LINESTRING"
    · simp only [if_pos hl] at h ⊢
      cases hp : from_tokens_with_parens LineString.from_tokens ts with
      | error e => rw [hp] at h; exact absurd h (by simp)
      | ok pr =>
        obtain ⟨l, r⟩ := pr
        rw [hp] at h
        rw [from_tokens_with_parens_append LineString.from_tokens
          linestring_from_tokens_append ts ex l r hp]
        exact h
    · simp only [if_neg hl] at h
      exact absurd h (by simp)

/-- C7: a successfully parsed document holds at most one geometry, and
when a geometry was parsed, appending any further tokens neither fails
nor changes the result (the dispatcher parses one leading geometry and
ignores the rest of the stream). -/
theorem C7_single_geometry_trailing_ignored :
    (∀ (ts : List Token) (w : Wkt),
      Wkt.from_tokens ts = .ok w → w.items.length ≤ 1) ∧
    (∀ (ts extra : List Token) (w : Wkt),
      Wkt.from_tokens ts = .ok w → w.items ≠ [] →
      Wkt.from_tokens (ts ++ extra) = .ok w) := by
  constructor
  · intro ts w h
    match ts with
    | [] =>
      simp only [Wkt.from_tokens, Except.ok.injEq] at h
      simp [← h]
    | .Word w0 :: rest =>
      simp only [Wkt.from_tokens] at h
      split at h
      · exact absurd h (by simp)
      · cases hd : WktItem.from_word_and_tokens (to_ascii_uppercase w0) rest with
        | error e => rw [hd] at h; exact absurd h (by simp)
        | ok item =>
          rw [hd] at h
          simp only [Except.ok.injEq] at h
          simp [← h]
    | .Comma :: _ | .Number _ :: _ | .ParenClose :: _ | .ParenOpen :: _ =>
      simp [Wkt.from_tokens] at h
  · intro ts extra w h hne
    match ts with
    | [] =>
      simp only [Wkt.from_tokens, Except.ok.injEq] at h
      exact absurd (congrArg Wkt.items h.symm) hne
    | .Word w0 :: rest =>
      simp only [Wkt.from_tokens, List.cons_append] at h ⊢
      split at h
      · exact absurd h (by simp)
      · split
        · simp_all
        · cases hd : WktItem.from_word_and_tokens (to_ascii_uppercase w0) rest with
          | error e => rw [hd] at h; exact absurd h (by simp)
          | ok item =>
            rw [hd] at h
            rw [from_word_and_tokens_append _ rest extra item hd]
            exact h
    | .Comma :: _ | .Number _ :: _ | .ParenClose :: _ | .ParenOpen :: _ =>
      simp [Wkt.from_tokens] at h

/-! ## Repetition lemmas (for C5) -/

theorem split_sign_default {c : Char} (h1 : ¬(c = '+')) (h2 : ¬(c = '-'))
    (l : List Char) : split_sign (c :: l) = (false, c :: l) := by
  unfold split_sign
  split
  · next heq => rw [List.cons.injEq] at heq; exact absurd heq.1 h1
  · next heq => rw [List.cons.injEq] at heq; exact absurd heq.1 h2
  · rfl

theorem ascii_lower_of_lt {c : Char} (h : c.toNat < 65) : ascii_lower c = c := by
  unfold ascii_lower
  rw [if_neg]
  intro hcon
  rw [Bool.and_eq_true, decide_eq_true_eq, decide_eq_true_eq] at hcon
  have : ('A').toNat ≤ c.toNat := hcon.1
  rw [(by decide : ('A').toNat = 65)] at this
  omega

/-- A nonempty all-digit run parses as a finite float value. -/
theorem rust_parse_float_all_digits (c : Char) (l : List Char)
    (hd : ∀ d ∈ c :: l, d.isDigit = true) :
    ∃ q, rust_parse_float (c :: l) = some (.finite q) := by
  have hc := isDigit_toNat (hd c (by simp))
  have hplus : ¬(c = '+') := by
    rw [char_eq_iff_toNat, (by decide : ('+').toNat = 43)]; omega
  have hminus : ¬(c = '-') := by
    rw [char_eq_iff_toNat, (by decide : ('-').toNat = 45)]; omega
  have hlow : (c :: l).map ascii_lower = ascii_lower c :: l.map ascii_lower :=
    rfl
  have hlc : ascii_lower c = c := ascii_lower_of_lt (by omega)
  have hnotinf : ¬((c :: l).map ascii_lower = ['i', 'n', 'f']) := by
    rw [hlow, hlc, List.cons.injEq]
    intro hcon
    rw [hcon.1] at hc
    exact absurd hc (by decide)
  have hnotinfinity : ¬((c :: l).map ascii_lower = "infinity".data) := by
    rw [(by decide : "infinity".data = ['i', 'n', 'f', 'i', 'n', 'i', 't', 'y']),
      hlow, hlc, List.cons.injEq]
    intro hcon
    rw [hcon.1] at hc
    exact absurd hc (by decide)
  have hnotnan : ¬((c :: l).map ascii_lower = ['n', 'a', 'n']) := by
    rw [hlow, hlc, List.cons.injEq]
    intro hcon
    rw [hcon.1] at hc
    exact absurd hc (by decide)
  have htake : (c :: l).takeWhile Char.isDigit = c :: l :=
    List.takeWhile_eq_self_iff.mpr hd
  have hdrop : (c :: l).dropWhile Char.isDigit = [] :=
    List.dropWhile_eq_nil_iff.mpr hd
  refine ⟨mantissa_val (c :: l) [] 0, ?_⟩
  simp only [rust_parse_float, split_sign_default hplus hminus,
    Bool.or_eq_true, hnotinf, hnotinfinity, hnotnan, or_self,
    Bool.false_eq_true, if_false, decide_eq_true_eq]
  simp only [rust_parse_number, htake, hdrop]
  rfl

theorem tokenize_nil : tokenize [] = [] := rfl

theorem tokenize_eq_nil_of_none {l : List Char} (h : next_token l = none) :
    tokenize l = [] := by
  rw [tokenize_eq, h]

theorem next_token_all_ws :
    ∀ (l : List Char), (∀ c ∈ l, is_whitespace c = true) →
      next_token l = none := by
  intro l h
  induction l with
  | nil => rfl
  | cons c rest ih =>
    rw [next_token_ws rest (h c (by simp))]
    exact ih (fun d hd => h d (by simp [hd]))

theorem tokenize_replicate_of_simple (c : Char) (t : Token)
    (h : ∀ r, next_token (c :: r) = some (t, r)) :
    ∀ n, tokenize (List.replicate n c) = List.replicate n t := by
  intro n
  induction n with
  | zero => rfl
  | succ n ih =>
    rw [List.replicate_succ, tokenize_eq, h]
    show t :: tokenize (List.replicate n c) = _
    rw [ih, List.replicate_succ]

theorem tokenize_replicate_plus (n : ℕ) :
    tokenize (List.replicate (n + 1) '+') = [] := by
  have haux := read_until_aux_all (List.replicate n '+')
    (fun d hd => by rw [List.eq_of_mem_replicate hd]; decide)
  rw [List.replicate_succ, tokenize_eq, next_token_number _ (by decide)]
  simp only [haux]
  rw [List.dropWhile_eq_nil_iff.mpr
    (fun x hx => by
      rcases List.mem_cons.mp hx with h | h
      · simp [h]
      · simp [List.eq_of_mem_replicate h])]
  rfl

theorem word_char_of_bounds {c : Char}
    (hm : is_marker c = false) (hw : is_whitespace c = false) :
    word_char c = true := by
  simp [word_char, hm, hw]

theorem tokenize_replicate_alpha (c : Char) (hc : c.isAlpha = true) (n : ℕ) :
    tokenize (List.replicate (n + 1) c) =
      [Token.Word ⟨List.replicate (n + 1) c⟩] := by
  have hb := isAlpha_toNat hc
  have hw : is_whitespace c = false := by
    rw [← Bool.not_eq_true, is_whitespace_iff]; omega
  have hm : is_marker c = false := by
    rw [← Bool.not_eq_true, is_marker_iff]; omega
  have hn : is_numberlike c = false := by
    rw [← Bool.not_eq_true, is_numberlike_iff]
    intro hcon
    rcases hcon with hnum | h46 | h45 | h43
    · rw [char_is_numeric_ascii_digit (by omega)] at hnum
      omega
    · omega
    · omega
    · omega
  have haux := read_until_aux_all (List.replicate n c)
    (fun d hd => by
      rw [List.eq_of_mem_replicate hd]; exact word_char_of_bounds hm hw)
  rw [List.replicate_succ, tokenize_eq, next_token_word _ hw hm hn]
  simp only [haux, tokenize_nil]

theorem tokenize_replicate_digit (c : Char) (hc : c.isDigit = true) (n : ℕ) :
    (tokenize (List.replicate (n + 1) c)).length = 1 := by
  have hb := isDigit_toNat hc
  have hn : is_numberlike c = true := by
    rw [is_numberlike_iff]
    exact Or.inl ((char_is_numeric_ascii_digit (by omega)).mpr (by omega))
  have hw : is_whitespace c = false := by
    rw [← Bool.not_eq_true, is_whitespace_iff]; omega
  have hm : is_marker c = false := by
    rw [← Bool.not_eq_true, is_marker_iff]; omega
  have haux := read_until_aux_all (List.replicate n c)
    (fun d hd => by
      rw [List.eq_of_mem_replicate hd]; exact word_char_of_bounds hm hw)
  have hdropp : (c :: List.replicate n c).dropWhile (· = '+') =
      c :: List.replicate n c :=
    List.dropWhile_cons_of_neg (by
      simp only [decide_eq_true_eq]
      rw [char_eq_iff_toNat, (by decide : ('+').toNat = 43)]
      omega)
  obtain ⟨q, hq⟩ := rust_parse_float_all_digits c (List.replicate n c)
    (fun d hd => by
      rcases List.mem_cons.mp hd with h | h
      · rw [h]; exact hc
      · rw [List.eq_of_mem_replicate h]; exact hc)
  rw [List.replicate_succ, tokenize_eq, next_token_number _ hn]
  simp only [haux, hdropp, hq, tokenize_nil]
  rfl

/-- C5: for every N ≥ 1, N repetitions of `(`, `)` or `,` tokenize to N
matching tokens; N repetitions of `+` or of a whitespace character
tokenize to nothing; N repetitions of an ASCII letter or decimal digit
tokenize to exactly one token. -/
theorem C5_repetitions (N : ℕ) (hN : 1 ≤ N) :
    tokenize (List.replicate N '(') = List.replicate N Token.ParenOpen ∧
    tokenize (List.replicate N ')') = List.replicate N Token.ParenClose ∧
    tokenize (List.replicate N ',') = List.replicate N Token.Comma ∧
    tokenize (List.replicate N '+') = [] ∧
    (∀ c, is_whitespace c = true → tokenize (List.replicate N c) = []) ∧
    (∀ c, c.isAlpha = true → (tokenize (List.replicate N c)).length = 1) ∧
    (∀ c, c.isDigit = true → (tokenize (List.replicate N c)).length = 1) := by
  obtain ⟨n, rfl⟩ : ∃ n, N = n + 1 := ⟨N - 1, by omega⟩
  refine ⟨tokenize_replicate_of_simple '(' Token.ParenOpen (fun r => rfl) _,
    tokenize_replicate_of_simple ')' Token.ParenClose (fun r => rfl) _,
    tokenize_replicate_of_simple ',' Token.Comma (fun r => rfl) _,
    tokenize_replicate_plus n, fun c hc => ?_, fun c hc => ?_, fun c hc => ?_⟩
  · exact tokenize_eq_nil_of_none (next_token_all_ws _
      (fun d hd => by rw [List.eq_of_mem_replicate hd]; exact hc))
  · rw [tokenize_replicate_alpha c hc n]
    rfl
  · exact tokenize_replicate_digit c hc n

/-- C5, witness: the repetition properties at N = 3 with concrete
characters. -/
theorem C5_repetitions_witness :
    tokenize (List.replicate 3 ',') = List.replicate 3 Token.Comma ∧
    tokenize (List.replicate 3 '+') = [] ∧
    (tokenize (List.replicate 3 'A')).length = 1 ∧
    (tokenize (List.replicate 3 '7')).length = 1 :=
  ⟨(C5_repetitions 3 (by norm_num)).2.2.1,
   (C5_repetitions 3 (by norm_num)).2.2.2.1,
   (C5_repetitions 3 (by norm_num)).2.2.2.2.2.1 'A' (by decide),
   (C5_repetitions 3 (by norm_num)).2.2.2.2.2.2 '7' (by decide)⟩

/-! ## NUL behaviour (for C8) -/

theorem read_until_aux_nul :
    ∀ (l : List Char), '\x00' ∉ l → ∀ (rest : List Char),
      read_until_aux (l ++ '\x00' :: rest) =
        ((read_until_aux l).1, (read_until_aux l).2 ++ '\x00' :: rest) := by
  intro l
  induction l with
  | nil =>
    intro h rest
    simp [read_until_aux, is_marker]
  | cons c l' ih =>
    intro h rest
    have h' : '\x00' ∉ l' := fun hm => h (by simp [hm])
    by_cases hm : is_marker c
    · simp [read_until_aux, hm]
    · by_cases hw : is_whitespace c
      · simp [read_until_aux, hm, hw]
      · simp [read_until_aux, hm, hw, ih h' rest]

theorem next_token_nul :
    ∀ (l : List Char), '\x00' ∉ l → ∀ (rest : List Char),
      next_token (l ++ '\x00' :: rest) =
        (next_token l).map (fun p => (p.1, p.2 ++ '\x00' :: rest)) := by
  intro l
  induction l with
  | nil => intro h rest; rfl
  | cons c l' ih =>
    intro h rest
    have hc : ¬(c = '\x00') := fun hc => h (by simp [hc])
    have h' : '\x00' ∉ l' := fun hm => h (by simp [hm])
    by_cases hw : is_whitespace c = true
    · rw [List.cons_append, next_token_ws _ hw, next_token_ws _ hw, ih h' rest]
    · have hw' : is_whitespace c = false := by simpa using hw
      by_cases hp1 : c = '('
      · subst hp1; rfl
      · by_cases hp2 : c = ')'
        · subst hp2; rfl
        · by_cases hp3 : c = ','
          · subst hp3; rfl
          · have hm : is_marker c = false := by
              simp [is_marker, hc, hp1, hp2, hp3]
            by_cases hn : is_numberlike c = true
            · rw [List.cons_append, next_token_number _ hn,
                next_token_number _ hn, read_until_aux_nul l' h' rest]
              cases hpf : rust_parse_float
                  ((c :: (read_until_aux l').1).dropWhile (· = '+')) with
              | none => simp [hpf]
              | some v => simp [hpf]
            · have hn' : is_numberlike c = false := by simpa using hn
              rw [List.cons_append, next_token_word _ hw' hm hn',
                next_token_word _ hw' hm hn', read_until_aux_nul l' h' rest]
              simp

/-- C8: a NUL character behaves as end-of-input: tokenizing any input
whose NUL-free part is followed by a NUL and arbitrary further text
yields exactly the tokens of the NUL-free part — no token is emitted
for the NUL itself, nothing after it is read, and a NUL inside a word
or numeric run ends that run exactly where end-of-input would. -/
theorem C8_nul_terminates (l rest : List Char) (h : '\x00' ∉ l) :
    tokenize (l ++ '\x00' :: rest) = tokenize l := by
  have main : ∀ (n : ℕ) (l : List Char), l.length ≤ n → '\x00' ∉ l →
      ∀ (rest : List Char), tokenize (l ++ '\x00' :: rest) = tokenize l := by
    intro n
    induction n with
    | zero =>
      intro l hn hnul rest
      have : l = [] := List.length_eq_zero.mp (Nat.le_zero.mp hn)
      subst this
      rw [tokenize_eq]
      rfl
    | succ n ih =>
      intro l hn hnul rest
      rw [tokenize_eq (l ++ '\x00' :: rest), tokenize_eq l,
        next_token_nul l hnul rest]
      cases hnt : next_token l with
      | none => rfl
      | some p =>
        obtain ⟨t, r⟩ := p
        have hsuf := next_token_suffix hnt
        have hr : '\x00' ∉ r := fun hm => hnul (hsuf.sublist.subset hm)
        have hlen := next_token_len hnt
        simp only [Option.map_some']
        rw [ih r (by omega) hr rest]
  exact main l.length l le_rfl h rest

/-- C8, witness: a NUL inside a word run ends the run and drops the
rest of the input. -/
theorem C8_nul_terminates_witness :
    tokenize ("ab".data ++ '\x00' :: "cd".data) = tokenize "ab".data :=
  C8_nul_terminates "ab".data "cd".data (by decide)

/-! ## Start-of-token classification (C2) -/

/-- C2, counterexample: `'½'` (U+00BD, a non-ASCII character that is
not a decimal digit) is number-like for the tokenizer — Rust's
`char::is_numeric` is true on it — so it starts a numeric literal
whose parse fails, and the claim's promised `Word` token never
appears. -/
theorem C2_counterexample :
    is_numberlike '½' = true ∧ tokenize ['½'] = [] ∧
    tokenize ['½'] ≠ [Token.Word ⟨['½']⟩] :=
  ⟨by decide, by decide, by decide⟩

/-- C2 (amended): a character satisfying the tokenizer's number-like
test — Unicode-numeric per `char::is_numeric` (not merely a decimal
digit), `.`, `-` or `+` — starts a numeric literal, producing either a
`Number` token or nothing; any other non-whitespace character that is
not `(`, `)`, `,` or NUL starts a `Word` accumulating all subsequent
non-whitespace, non-marker characters. -/
theorem C2_start_classification (c : Char) (rest : List Char) :
    (is_numberlike c = true →
      next_token (c :: rest) = none ∨
      ∃ v r, next_token (c :: rest) = some (.Number v, r)) ∧
    (is_whitespace c = false → is_marker c = false → is_numberlike c = false →
      ∃ r, next_token (c :: rest) =
        some (.Word ⟨c :: rest.takeWhile word_char⟩, r)) := by
  constructor
  · intro hn
    rw [next_token_number rest hn]
    cases hpf : rust_parse_float
        ((c :: (read_until_aux rest).1).dropWhile (· = '+')) with
    | none => exact Or.inl rfl
    | some v => exact Or.inr ⟨v, (read_until_aux rest).2, rfl⟩
  · intro hw hm hn
    refine ⟨(read_until_aux rest).2, ?_⟩
    rw [next_token_word rest hw hm hn, read_until_aux_take]

/-- C2, witness: a letter starts a word token and a digit starts a
numeric literal. -/
theorem C2_start_classification_witness :
    (∃ r, next_token ('h' :: "i there".data) =
      some (.Word ⟨'h' :: "i there".data.takeWhile word_char⟩, r)) ∧
    (next_token ('7' :: []) = none ∨
      ∃ v r, next_token ('7' :: []) = some (.Number v, r)) :=
  ⟨(C2_start_classification 'h' "i there".data).2 (by decide) (by decide)
      (by decide),
   (C2_start_classification '7' []).1 (by decide)⟩

/-- C7, witness: trailing garbage tokens after a parsed point are
ignored. -/
theorem C7_single_geometry_trailing_ignored_witness :
    Wkt.from_tokens
        (tokenize "POINT (10 -20)".data ++ [Token.Comma, Token.ParenOpen]) =
      .ok { items := [.Point { coord :=
        { x := .finite 10, y := .finite (-20), z := none, m := none } }] } :=
  C7_single_geometry_trailing_ignored.2
    (tokenize "POINT (10 -20)".data) [Token.Comma, Token.ParenOpen]
    { items := [.Point { coord :=
        { x := .finite 10, y := .finite (-20), z := none, m := none } }] }
    (by decide) (by decide)

end Wkt
